import Mathlib

/-!
Verification development for the kiosk agent (`kiosk.py`).

The pure scheduling, drift, playlist-state, offline-policy, cache-cleanup and
fingerprint functions of the source are shallowly embedded below and the
spec-level properties about them are proved.

Modelling conventions:
* Epoch timestamps are whole seconds, embedded as `Int` (the source passes
  `time.time()` floats around; all claims are about whole-second instants).
* Python's `//` and `%` on integers are floor division/modulo; for positive
  divisors `Int.fdiv`/`Int.emod` agree with them.
* Python `float` arithmetic inside `signed_cycle_delta_ms` and
  `offline_playlist_allowed` is embedded exactly over `ℚ` (the idealised
  real-number reading of IEEE doubles; all quantities involved are exactly
  representable in the ranges of interest).
* SHA-1 hashing (`sha1_hex`) composed with the canonical JSON dump
  (`json.dumps(payload, sort_keys=True)`) is injective on the payloads the
  source feeds it, so a hash value is modelled by the canonical payload
  itself: two hashes are equal exactly when the payloads are equal.
-/

namespace Kiosk

/-- Source constant `SECONDS_PER_DAY = 24 * 3600`. -/
def SECONDS_PER_DAY : Int := 24 * 3600

/-- Source constant `SYNC_DAILY_ANCHOR_SEC_UTC = 5 * 60`. -/
def SYNC_DAILY_ANCHOR_SEC_UTC : Int := 5 * 60

/-- Embeds the frozen dataclass `MediaItem` of the source. -/
structure MediaItem where
  url : String
  duration_ms : Int
  path : String
  campaign_id : String
  campaign_name : String
  deriving DecidableEq, Repr

/-- Embeds the frozen dataclass `CyclePosition` of the source. -/
structure CyclePosition where
  index : Nat
  offset_ms : Int
  cycle_pos_ms : Int
  cycle_total_ms : Int
  anchor_ts : Int
  deriving DecidableEq, Repr

/-- Embeds `effective_duration_ms`: clamp a duration to at least 1000 ms
(`max(parsed, 1000)`; the `int()` parse step is identity on integers). -/
def effective_duration_ms (duration_ms : Int) : Int :=
  max duration_ms 1000

/-- Embeds `cycle_timeline`: per-item effective durations, their prefix-sum
start offsets, and the total cycle length. -/
def cycle_timeline (items : List MediaItem) : List Int × List Int × Int :=
  go items 0
where
  go : List MediaItem → Int → List Int × List Int × Int
    | [], total => ([], [], total)
    | item :: rest, total =>
      let duration := effective_duration_ms item.duration_ms
      let (durations, starts, final) := go rest (total + duration)
      (duration :: durations, total :: starts, final)

/-- Prefix-sum timeline of a raw duration list: `cycle_start_ms durations k`
is the cycle offset at which slot `k` begins (the `cycle_start_ms` list built
by `cycle_timeline` / the cursor of `compute_cycle_position_from_utc`). -/
def cycle_start_ms (durations_ms : List Int) (k : Nat) : Int :=
  (durations_ms.take k).sum

/-- Epoch second of 00:00:00 UTC of the UTC day containing `ts`. Embeds the
source round trip `calendar.timegm((gmtime(ts).tm_year, tm_mon, tm_mday, ...))`
restricted to the date fields, which on integer epoch seconds is floor
division by 86400. -/
def utc_midnight_ts (ts : Int) : Int :=
  ts.fdiv 86400 * 86400

/-- Embeds `daily_anchor_utc_ts`: 00:05:00 UTC of the current UTC day, moved
one day back when `now_ts` lies before it. -/
def daily_anchor_utc_ts (now_ts : Int) : Int :=
  let anchor := utc_midnight_ts now_ts + SYNC_DAILY_ANCHOR_SEC_UTC
  if now_ts < anchor then anchor - SECONDS_PER_DAY else anchor

/-- Embeds the `for idx, duration in enumerate(durations_ms)` search loop of
`compute_cycle_position_from_utc`: walk the durations keeping a running
cursor, returning the first slot whose end exceeds `elapsed_ms` together with
its start cursor, or `none` when the loop falls through. -/
def find_slot (elapsed_ms : Int) : Int → Nat → List Int → Option (Nat × Int)
  | _cursor, _idx, [] => none
  | cursor, idx, duration :: rest =>
    let next_cursor := cursor + duration
    if elapsed_ms < next_cursor then some (idx, cursor)
    else find_slot elapsed_ms next_cursor (idx + 1) rest

/-- Embeds `compute_cycle_position_from_utc`. The Python `raise ValueError`
on an empty duration list is modelled by `none`; every other input returns
`some` position. `int((now_ts - anchor_ts) * 1000)` is exact on whole-second
timestamps, and Python `%` with the positive modulus `cycle_total` is
`Int.emod`. -/
def compute_cycle_position_from_utc (now_ts : Int) (durations_ms : List Int) :
    Option CyclePosition :=
  if durations_ms = [] then none
  else
    let cycle_total := max durations_ms.sum 1
    let anchor_ts := daily_anchor_utc_ts now_ts
    let elapsed_ms := ((now_ts - anchor_ts) * 1000).emod cycle_total
    match find_slot elapsed_ms 0 0 durations_ms with
    | some (idx, cursor) =>
      some { index := idx, offset_ms := elapsed_ms - cursor,
             cycle_pos_ms := elapsed_ms, cycle_total_ms := cycle_total,
             anchor_ts := anchor_ts }
    | none =>
      let last_idx := durations_ms.length - 1
      let last_duration := durations_ms.getLast?.getD 0
      some { index := last_idx, offset_ms := max (last_duration - 1) 0,
             cycle_pos_ms := max (cycle_total - 1) 0,
             cycle_total_ms := cycle_total, anchor_ts := anchor_ts }

/-- Python float modulo `x % y = x - y * floor(x / y)`, embedded exactly
over `ℚ`. -/
def pymod (x y : ℚ) : ℚ :=
  x - y * (⌊x / y⌋ : ℚ)

/-- Python `round` to nearest integer with ties going to the even neighbour
(banker's rounding, the behaviour of `round(float)`), embedded over `ℚ`. -/
def pyround (q : ℚ) : Int :=
  let f := ⌊q⌋
  let frac := q - (f : ℚ)
  if frac < 1 / 2 then f
  else if 1 / 2 < frac then f + 1
  else if f % 2 = 0 then f else f + 1

/-- Embeds `signed_cycle_delta_ms`: shortest signed arc from `current_ms` to
`target_ms` on the cycle of length `cycle_total_ms`, computed as
`((target - current + cycle/2) % cycle) - cycle/2` in float arithmetic and
rounded back to an integer; non-positive cycles short-circuit to 0. -/
def signed_cycle_delta_ms (target_ms current_ms cycle_total_ms : Int) : Int :=
  if cycle_total_ms ≤ 0 then 0
  else
    let half : ℚ := (cycle_total_ms : ℚ) / 2
    let delta : ℚ :=
      pymod ((target_ms : ℚ) - (current_ms : ℚ) + half) (cycle_total_ms : ℚ) - half
    pyround delta

/-- Embeds `classify_drift_action`: clamp the soft threshold at 0, raise the
hard threshold to at least the soft one, then bucket `|drift_ms|`. -/
def classify_drift_action (drift_ms drift_threshold_ms hard_resync_ms : Int) :
    String :=
  let threshold := max drift_threshold_ms 0
  let hard := max hard_resync_ms threshold
  let abs_drift := |drift_ms|
  if abs_drift < threshold then "none"
  else if abs_drift ≥ hard then "hard_resync"
  else "soft_resync"

/-- Embeds `items_signature`: the source hashes the canonical JSON dump of
the ordered per-item payload of `path` and `duration_ms`; the hash is
modelled by the payload list itself (see the module docstring). -/
def items_signature (items : List MediaItem) : List (String × Int) :=
  items.map fun i => (i.path, i.duration_ms)

/-- Embeds the mutable fields of the `PlaylistState` class: the item list,
the monotonic version counter, the stored fingerprint, and the stored item
signature. The constructor initialises the signature to the empty string,
which no real signature equals; this sentinel is modelled by `none`. -/
structure PlaylistState where
  items : List MediaItem
  version : Nat
  fingerprint : String
  signature : Option (List (String × Int))
  deriving DecidableEq, Repr

/-- Embeds `PlaylistState.__init__`. -/
def PlaylistState.init : PlaylistState :=
  { items := [], version := 0, fingerprint := "", signature := none }

/-- Embeds `PlaylistState.update`: a no-op returning `False` when both the
fingerprint and the recomputed item signature match the stored ones,
otherwise a wholesale replacement that bumps `version` and returns `True`.
The mutation of `self` is made explicit by returning the next state. -/
def PlaylistState.update (st : PlaylistState) (items : List MediaItem)
    (fingerprint : String) : Bool × PlaylistState :=
  let signature := items_signature items
  if fingerprint = st.fingerprint ∧ some signature = st.signature then
    (false, st)
  else
    (true, { items := items, version := st.version + 1,
             fingerprint := fingerprint, signature := some signature })

/-- Embeds `offline_playlist_allowed`. Config access is made explicit:
`max_age_hours` is `float(cfg.get("offline_max_age_hours") or 0)` and
`ignore_when_no_network` is
`cfg.get("offline_ignore_max_age_when_no_network", True)`. The source picks
`ref = load_last_success(cfg) or saved_at` on the raw strings, returns
`True` when `ref` is falsy, parses `ref` once with `parse_iso_utc`, and
returns `True` when that single parse fails. Each reference string is
therefore embedded in two layers: `none` when the string is missing or
empty (Python-falsy, so the `or` falls through to `saved_at`),
`some none` when non-empty but rejected by `parse_iso_utc`, and
`some (some ts)` when it parses to epoch second `ts`. `now_ts` is
`time.time()`. -/
def offline_playlist_allowed (max_age_hours : ℚ) (ignore_when_no_network : Bool)
    (last_success : Option (Option Int)) (saved_at : Option (Option Int))
    (network_available : Option Bool) (now_ts : Int) : Bool :=
  if max_age_hours ≤ 0 then true
  else if ignore_when_no_network = true ∧ network_available = some false then true
  else
    match last_success.orElse fun _ => saved_at with
    | none => true
    | some none => true
    | some (some ref_ts) =>
      decide (((now_ts : ℚ) - (ref_ts : ℚ)) / 3600 ≤ max_age_hours)

/-- One entry of the cache-directory listing seen by `cleanup_cache_dir`:
its path, whether `os.path.isfile` holds, its size, and its resolved
last-used instant (the cache-index `last_used` when parseable, else the
file mtime, else 0 — the source's `last_used_ts`). -/
structure CacheEntry where
  path : String
  is_file : Bool
  size : Int
  last_used_ts : Int
  deriving DecidableEq, Repr

/-- Embeds the eviction `while` loop of `cleanup_cache_dir`: pop the oldest
candidate while a configured limit is still exceeded, tracking the running
totals. -/
def evict_oldest : List (String × Int × Int) → Int → Int → Int → Int → List String
  | [], _total_count, _total_size, _max_files, _max_bytes => []
  | (path, size, _ts) :: rest, total_count, total_size, max_files, max_bytes =>
    if (0 < max_files ∧ max_files < total_count) ∨
        (0 < max_bytes ∧ max_bytes < total_size) then
      path :: evict_oldest rest (total_count - 1) (total_size - size) max_files max_bytes
    else []

/-- Regular files of the cache-directory listing (the `os.path.isfile`
filter of `cleanup_cache_dir`). -/
def cache_files (entries : List CacheEntry) : List CacheEntry :=
  entries.filter fun e => e.is_file

/-- The `total_size` accumulator of `cleanup_cache_dir`: bytes over all
regular files, kept files included. -/
def cache_total_size (entries : List CacheEntry) : Int :=
  ((cache_files entries).map fun e => e.size).sum

/-- The `total_count` accumulator of `cleanup_cache_dir`: number of regular
files, kept files included. -/
def cache_total_count (entries : List CacheEntry) : Int :=
  (cache_files entries).length

/-- The `candidates` list of `cleanup_cache_dir`: regular files outside
`keep_paths`, as `(path, size, last_used_ts)` triples in listing order. -/
def cleanup_candidates (entries : List CacheEntry) (keep_paths : List String) :
    List (String × Int × Int) :=
  ((cache_files entries).filter fun e => !decide (e.path ∈ keep_paths)).map
    fun e => (e.path, e.size, e.last_used_ts)

/-- The `candidates.sort(key=lambda entry: entry[2])` step of
`cleanup_cache_dir`: candidates ordered by last-used instant (Python's
stable sort). -/
def cleanup_sorted (entries : List CacheEntry) (keep_paths : List String) :
    List (String × Int × Int) :=
  (cleanup_candidates entries keep_paths).mergeSort fun a b => a.2.2 ≤ b.2.2

/-- Embeds `cleanup_cache_dir`, returning the list of paths it removes.
The directory walk is made explicit as `entries`; non-files are skipped,
every file contributes to the running totals, files in `keep_paths` are
never candidates. With no limit configured all candidates are removed;
otherwise candidates are evicted oldest-first while a limit is exceeded.
`os.remove` is modelled as always succeeding. -/
def cleanup_cache_dir (entries : List CacheEntry) (keep_paths : List String)
    (max_files max_bytes : Int) : List String :=
  if max_files ≤ 0 ∧ max_bytes ≤ 0 then
    (cleanup_candidates entries keep_paths).map fun c => c.1
  else
    evict_oldest (cleanup_sorted entries keep_paths)
      (cache_total_count entries) (cache_total_size entries) max_files max_bytes

/-- Value stored under a key of a raw API item (a JSON object field). -/
inductive PyVal where
  | str (s : String)
  | int (n : Int)
  deriving DecidableEq, Repr

/-- A raw API item, i.e. a Python dict: an association list of fields in
insertion order (keys unique). -/
abbrev RawItem := List (String × PyVal)

/-- Embeds `fingerprint_items`: the source hashes
`json.dumps(payload, sort_keys=True)` where `payload` projects each raw item
to `\x7b"url": i["url"], "duration_ms": i["duration_ms"]\x7d`. Each payload
dict has exactly those two keys, so the sorted-key canonical dump — and
hence the SHA-1 value — is an injective function of the ordered list of
`(duration_ms, url)` pairs, which models the hash (see the module
docstring). Dict subscripting is `List.lookup` on the association list. -/
def fingerprint_items (raw_items : List RawItem) : List (Option PyVal × Option PyVal) :=
  raw_items.map fun i => (i.lookup "duration_ms", i.lookup "url")

/-! ### Helper lemmas -/

lemma pyround_intCast (n : Int) : pyround (n : ℚ) = n := by
  norm_num [pyround]

lemma signed_cycle_delta_core (t c cy : Int) (hcy : 0 < cy) :
    -cy ≤ 2 * signed_cycle_delta_ms t c cy ∧
    2 * signed_cycle_delta_ms t c cy < cy ∧
    Int.ModEq cy (c + signed_cycle_delta_ms t c cy) t := by
  have hne : ¬ cy ≤ 0 := not_le.mpr hcy
  have hcyQ : (0 : ℚ) < (cy : ℚ) := by exact_mod_cast hcy
  set x : ℚ := (t : ℚ) - (c : ℚ) + (cy : ℚ) / 2 with hx
  set k : Int := ⌊x / (cy : ℚ)⌋ with hk
  have hval : signed_cycle_delta_ms t c cy = t - c - cy * k := by
    rw [signed_cycle_delta_ms, if_neg hne]
    show pyround (pymod ((t : ℚ) - (c : ℚ) + (cy : ℚ) / 2) (cy : ℚ) - (cy : ℚ) / 2) = _
    have harg : pymod x (cy : ℚ) - (cy : ℚ) / 2 = ((t - c - cy * k : Int) : ℚ) := by
      rw [pymod, ← hk, hx]
      push_cast
      ring
    rw [← hx, harg, pyround_intCast]
  have h1 : (k : ℚ) * (cy : ℚ) ≤ x := by
    have := Int.floor_le (x / (cy : ℚ))
    rw [← hk] at this
    rwa [← le_div_iff₀ hcyQ]
  have h2 : x < ((k : ℚ) + 1) * (cy : ℚ) := by
    have := Int.lt_floor_add_one (x / (cy : ℚ))
    rw [← hk] at this
    rwa [← div_lt_iff₀ hcyQ]
  rw [hx] at h1 h2
  have hb1 : -(cy : ℚ) ≤ 2 * ((t : ℚ) - (c : ℚ) - (cy : ℚ) * (k : ℚ)) := by linarith
  have hb2 : 2 * ((t : ℚ) - (c : ℚ) - (cy : ℚ) * (k : ℚ)) < (cy : ℚ) := by linarith
  rw [hval]
  refine ⟨?_, ?_, ?_⟩
  · exact_mod_cast hb1
  · exact_mod_cast hb2
  · exact Int.modEq_iff_dvd.mpr ⟨k, by ring⟩

/-! ### Claim theorems -/

/-- C10: whenever `cycle_total_ms ≤ 0`, `signed_cycle_delta_ms` returns 0:
the modulo computation is guarded and the function is total. -/
theorem signed_cycle_delta_ms_nonpos_cycle (target_ms current_ms cycle_total_ms : Int)
    (h : cycle_total_ms ≤ 0) :
    signed_cycle_delta_ms target_ms current_ms cycle_total_ms = 0 := by
  rw [signed_cycle_delta_ms, if_pos h]

theorem signed_cycle_delta_ms_nonpos_cycle_witness :
    (0 : Int) ≤ 0 ∧ signed_cycle_delta_ms 7 (-3) 0 = 0 :=
  ⟨le_refl 0, signed_cycle_delta_ms_nonpos_cycle 7 (-3) 0 (le_refl 0)⟩

/-- C2 (amended): for every positive `cycle_total_ms` the returned delta lies
in the half-open interval `[−cycle/2, cycle/2)` — closed below, open above,
rather than the claimed `(−cycle/2, cycle/2]` — and satisfies
`(current + delta) ≡ target (mod cycle)`; in particular
`signed_cycle_delta_ms 100 59900 60000 = 200`. -/
theorem signed_cycle_delta_ms_spec :
    (∀ target_ms current_ms cycle_total_ms : Int, 0 < cycle_total_ms →
      -cycle_total_ms ≤ 2 * signed_cycle_delta_ms target_ms current_ms cycle_total_ms ∧
      2 * signed_cycle_delta_ms target_ms current_ms cycle_total_ms < cycle_total_ms ∧
      Int.ModEq cycle_total_ms
        (current_ms + signed_cycle_delta_ms target_ms current_ms cycle_total_ms)
        target_ms) ∧
    signed_cycle_delta_ms 100 59900 60000 = 200 := by
  refine ⟨fun t c cy h => signed_cycle_delta_core t c cy h, ?_⟩
  obtain ⟨h1, h2, h3⟩ := signed_cycle_delta_core 100 59900 60000 (by norm_num)
  have h4 : (60000 : Int) ∣ 100 - (59900 + signed_cycle_delta_ms 100 59900 60000) :=
    Int.modEq_iff_dvd.mp h3
  omega

theorem signed_cycle_delta_ms_spec_witness :
    ((0 : Int) < 60000 ∧
      -(60000 : Int) ≤ 2 * signed_cycle_delta_ms 100 59900 60000 ∧
      2 * signed_cycle_delta_ms 100 59900 60000 < 60000 ∧
      Int.ModEq 60000 (59900 + signed_cycle_delta_ms 100 59900 60000) 100) ∧
    signed_cycle_delta_ms 100 59900 60000 = 200 :=
  ⟨⟨by norm_num, signed_cycle_delta_ms_spec.1 100 59900 60000 (by norm_num)⟩,
    signed_cycle_delta_ms_spec.2⟩

/-- C2 counterexample: at `target = 0, current = 30000, cycle = 60000` the
code returns exactly `−cycle/2 = −30000`, which lies outside the interval
`(−cycle/2, cycle/2]` stated by the claim. -/
theorem signed_cycle_delta_ms_cex :
    signed_cycle_delta_ms 0 30000 60000 = -30000 ∧
    ¬ (-(60000 : Int) < 2 * signed_cycle_delta_ms 0 30000 60000) := by
  obtain ⟨h1, h2, h3⟩ := signed_cycle_delta_core 0 30000 60000 (by norm_num)
  have h4 : (60000 : Int) ∣ 0 - (30000 + signed_cycle_delta_ms 0 30000 60000) :=
    Int.modEq_iff_dvd.mp h3
  constructor <;> omega

/-- C4: `daily_anchor_utc_ts` is 00:05:00 UTC of the UTC day containing
`now_ts` when `now_ts` is at or past that instant, else 00:05:00 UTC of the
previous UTC day; equivalently it is the unique instant `≡ 00:05:00 (mod 1
day)` in the window `(now_ts − 1 day, now_ts]`. In particular
2026-02-08T00:02:00Z anchors to 2026-02-07T00:05:00Z and
2026-02-08T14:10:00Z anchors to 2026-02-08T00:05:00Z. -/
theorem daily_anchor_utc_ts_spec :
    (∀ ts : Int,
      daily_anchor_utc_ts ts =
        if ts < utc_midnight_ts ts + 300 then utc_midnight_ts ts + 300 - 86400
        else utc_midnight_ts ts + 300) ∧
    (∀ ts : Int, daily_anchor_utc_ts ts % 86400 = 300 ∧
      ts - 86400 < daily_anchor_utc_ts ts ∧ daily_anchor_utc_ts ts ≤ ts) ∧
    daily_anchor_utc_ts 1770508920 = 1770422700 ∧
    daily_anchor_utc_ts 1770559800 = 1770509100 := by
  have hmid : ∀ ts : Int, utc_midnight_ts ts = ts / 86400 * 86400 := fun ts => by
    rw [utc_midnight_ts, Int.fdiv_eq_ediv ts (by norm_num)]
  refine ⟨fun ts => ?_, fun ts => ?_, by decide, by decide⟩
  · rw [daily_anchor_utc_ts]
    norm_num [SYNC_DAILY_ANCHOR_SEC_UTC, SECONDS_PER_DAY]
  · rw [daily_anchor_utc_ts]
    simp only [SYNC_DAILY_ANCHOR_SEC_UTC, SECONDS_PER_DAY, hmid]
    have h1 := Int.emod_emod_of_dvd ts (dvd_refl (86400 : Int))
    have h2 := Int.ediv_add_emod ts 86400
    have h3 := Int.emod_nonneg ts (by norm_num : (86400 : Int) ≠ 0)
    have h4 := Int.emod_lt_of_pos ts (by norm_num : (0 : Int) < 86400)
    split <;> omega

/-- C3: `classify_drift_action` partitions the integers at the clamped soft
threshold `max(drift_threshold_ms, 0)` and the raised hard threshold
`max(hard_resync_ms, threshold)`: below the soft threshold it is "none",
from soft up to (excluding) hard it is "soft_resync", and at or above hard
it is "hard_resync"; in particular `(100, 300, 1200) → none`,
`(350, 300, 1200) → soft_resync`, `(−1200, 300, 1200) → hard_resync`. -/
theorem classify_drift_action_spec :
    (∀ drift_ms drift_threshold_ms hard_resync_ms : Int,
      (classify_drift_action drift_ms drift_threshold_ms hard_resync_ms = "none" ↔
        |drift_ms| < max drift_threshold_ms 0) ∧
      (classify_drift_action drift_ms drift_threshold_ms hard_resync_ms = "soft_resync" ↔
        max drift_threshold_ms 0 ≤ |drift_ms| ∧
          |drift_ms| < max hard_resync_ms (max drift_threshold_ms 0)) ∧
      (classify_drift_action drift_ms drift_threshold_ms hard_resync_ms = "hard_resync" ↔
        max hard_resync_ms (max drift_threshold_ms 0) ≤ |drift_ms|)) ∧
    classify_drift_action 100 300 1200 = "none" ∧
    classify_drift_action 350 300 1200 = "soft_resync" ∧
    classify_drift_action (-1200) 300 1200 = "hard_resync" := by
  refine ⟨fun d t h => ?_, by decide, by decide, by decide⟩
  rw [classify_drift_action]
  split_ifs with h1 h2
  · refine ⟨⟨fun _ => h1, fun _ => rfl⟩, ⟨fun hs => absurd hs (by decide), fun hs => ?_⟩,
      ⟨fun hs => absurd hs (by decide), fun hs => ?_⟩⟩ <;> omega
  · refine ⟨⟨fun hs => absurd hs (by decide), fun hs => ?_⟩,
      ⟨fun hs => absurd hs (by decide), fun hs => ?_⟩, ⟨fun _ => h2, fun _ => rfl⟩⟩ <;> omega
  · refine ⟨⟨fun hs => absurd hs (by decide), fun hs => ?_⟩, ⟨fun _ => ⟨?_, ?_⟩, fun _ => rfl⟩,
      ⟨fun hs => absurd hs (by decide), fun hs => ?_⟩⟩ <;> omega

lemma find_slot_spec (elapsed_ms : Int) (ds : List Int) :
    ∀ (cursor : Int) (idx : Nat),
      (∀ d ∈ ds, 0 < d) → cursor ≤ elapsed_ms → elapsed_ms < cursor + ds.sum →
      ∃ k : Nat, k < ds.length ∧
        find_slot elapsed_ms cursor idx ds = some (idx + k, cursor + (ds.take k).sum) ∧
        cursor + (ds.take k).sum ≤ elapsed_ms ∧
        elapsed_ms < cursor + (ds.take k).sum + ds.getD k 0 := by
  induction ds with
  | nil =>
    intro cursor idx _ hle hlt
    simp only [List.sum_nil, add_zero] at hlt
    omega
  | cons d rest ih =>
    intro cursor idx hpos hle hlt
    by_cases hcase : elapsed_ms < cursor + d
    · refine ⟨0, by simp, ?_, by simpa using hle, by simpa using hcase⟩
      simp only [find_slot, if_pos hcase]
      simp
    · have hrest : ∀ x ∈ rest, 0 < x := fun x hx => hpos x (List.mem_cons_of_mem _ hx)
      have h1 : cursor + d ≤ elapsed_ms := not_lt.mp hcase
      have h2 : elapsed_ms < (cursor + d) + rest.sum := by
        rw [List.sum_cons] at hlt
        omega
      obtain ⟨k, hk1, hk2, hk3, hk4⟩ := ih (cursor + d) (idx + 1) hrest h1 h2
      refine ⟨k + 1, by simpa using hk1, ?_, ?_, ?_⟩
      · simp only [find_slot, if_neg hcase, hk2]
        congr 2
        · omega
        · simp only [List.take_succ_cons, List.sum_cons]
          ring
      · simp only [List.take_succ_cons, List.sum_cons]
        omega
      · simp only [List.take_succ_cons, List.sum_cons, List.getD_cons_succ]
        omega

lemma compute_cycle_position_from_utc_some (now_ts : Int) (ds : List Int)
    (hne : ds ≠ []) :
    ∃ cp : CyclePosition, compute_cycle_position_from_utc now_ts ds = some cp ∧
      cp.cycle_total_ms = max ds.sum 1 := by
  simp only [compute_cycle_position_from_utc, if_neg hne]
  split
  · exact ⟨_, rfl, rfl⟩
  · exact ⟨_, rfl, rfl⟩

/-- C1: on a non-empty playlist of positive durations,
`compute_cycle_position_from_utc` yields an in-range index, an offset inside
the indexed slot, the total cycle length, and a cycle position equal to the
slot start plus the offset; in particular for durations
`[10000, 20000, 30000]` at 25 s past the anchor it yields slot 1 at offset
15000 in a 60000 ms cycle. -/
theorem compute_cycle_position_from_utc_spec :
    (∀ (now_ts : Int) (durations_ms : List Int),
      durations_ms ≠ [] → (∀ d ∈ durations_ms, 0 < d) →
      ∃ cp : CyclePosition,
        compute_cycle_position_from_utc now_ts durations_ms = some cp ∧
        cp.index < durations_ms.length ∧
        0 ≤ cp.offset_ms ∧
        cp.offset_ms < durations_ms.getD cp.index 0 ∧
        cp.cycle_total_ms = durations_ms.sum ∧
        cp.offset_ms + cycle_start_ms durations_ms cp.index = cp.cycle_pos_ms) ∧
    (∀ now_ts : Int, daily_anchor_utc_ts now_ts = now_ts - 25 →
      compute_cycle_position_from_utc now_ts [10000, 20000, 30000] =
        some { index := 1, offset_ms := 15000, cycle_pos_ms := 25000,
               cycle_total_ms := 60000, anchor_ts := now_ts - 25 }) := by
  constructor
  · intro now ds hne hpos
    have hsum : 0 < ds.sum := List.sum_pos ds hpos hne
    have hmax : max ds.sum 1 = ds.sum := max_eq_left hsum
    set E : Int := ((now - daily_anchor_utc_ts now) * 1000).emod (max ds.sum 1) with hE
    have h0 : 0 ≤ E := by
      rw [hE]
      exact Int.emod_nonneg _ (by omega)
    have h1 : E < ds.sum := by
      rw [hE, hmax]
      exact Int.emod_lt_of_pos _ hsum
    obtain ⟨k, hk1, hk2, hk3, hk4⟩ := find_slot_spec E ds 0 0 hpos h0 (by simpa using h1)
    refine ⟨⟨0 + k, E - (0 + (ds.take k).sum), E, max ds.sum 1, daily_anchor_utc_ts now⟩,
      ?_, by simpa using hk1, by simpa using hk3, ?_, by simpa using hmax, ?_⟩
    · simp only [compute_cycle_position_from_utc, if_neg hne, ← hE, hk2]
    · simp only [zero_add] at hk4 ⊢
      omega
    · simp only [cycle_start_ms, Nat.zero_add]
      omega
  · intro now h
    have h25 : (now - daily_anchor_utc_ts now) * 1000 = 25000 := by
      rw [h]
      ring
    simp only [compute_cycle_position_from_utc, h25]
    norm_num [find_slot]
    exact ⟨by simp, h⟩

theorem compute_cycle_position_from_utc_spec_witness :
    ((325 : Int) - daily_anchor_utc_ts 325 = 25 ∧
      compute_cycle_position_from_utc 325 [10000, 20000, 30000] =
        some { index := 1, offset_ms := 15000, cycle_pos_ms := 25000,
               cycle_total_ms := 60000, anchor_ts := (325 : Int) - 25 }) :=
  ⟨by decide, compute_cycle_position_from_utc_spec.2 325 (by decide)⟩

/-- C9: `compute_cycle_position_from_utc` fails (the `ValueError`, modelled
by `none`) exactly on the empty duration list, and on every non-empty list —
zero or negative entries included — it returns a position whose
`cycle_total_ms` is `max(sum durations_ms, 1)`. -/
theorem compute_cycle_position_from_utc_total :
    ∀ (now_ts : Int) (durations_ms : List Int),
      (compute_cycle_position_from_utc now_ts durations_ms = none ↔ durations_ms = []) ∧
      (durations_ms ≠ [] →
        ∃ cp : CyclePosition,
          compute_cycle_position_from_utc now_ts durations_ms = some cp ∧
          cp.cycle_total_ms = max durations_ms.sum 1) := by
  intro now ds
  by_cases hne : ds = []
  · subst hne
    simp [compute_cycle_position_from_utc]
  · obtain ⟨cp, hcp, htot⟩ := compute_cycle_position_from_utc_some now ds hne
    exact ⟨by simp [hcp, hne], fun _ => ⟨cp, hcp, htot⟩⟩

theorem compute_cycle_position_from_utc_total_witness :
    ([(-5 : Int)] ≠ []) ∧
    (∃ cp : CyclePosition,
      compute_cycle_position_from_utc 325 [(-5 : Int)] = some cp ∧
      cp.cycle_total_ms = max [(-5 : Int)].sum 1) :=
  ⟨by decide, (compute_cycle_position_from_utc_total 325 [(-5 : Int)]).2 (by decide)⟩

/-- C5: `PlaylistState.update` with a matching stored fingerprint and item
signature is a no-op returning `False` with the whole state unchanged;
any other call replaces the item list wholesale, increments `version` by
exactly one, stores the new fingerprint and signature, and returns `True`. -/
theorem PlaylistState.update_spec :
    ∀ (st : PlaylistState) (items : List MediaItem) (fingerprint : String),
      (fingerprint = st.fingerprint ∧ some (items_signature items) = st.signature →
        st.update items fingerprint = (false, st)) ∧
      (¬(fingerprint = st.fingerprint ∧ some (items_signature items) = st.signature) →
        st.update items fingerprint =
          (true, { items := items, version := st.version + 1,
                   fingerprint := fingerprint,
                   signature := some (items_signature items) })) := by
  intro st items fp
  constructor
  · intro h
    simp only [PlaylistState.update]
    rw [if_pos h]
  · intro h
    simp only [PlaylistState.update]
    rw [if_neg h]

theorem PlaylistState.update_spec_witness :
    (¬(("" : String) = PlaylistState.init.fingerprint ∧
        some (items_signature []) = PlaylistState.init.signature)) ∧
    PlaylistState.init.update [] "" =
      (true, { items := [], version := PlaylistState.init.version + 1,
               fingerprint := "", signature := some (items_signature []) }) := by
  have h : ¬(("" : String) = PlaylistState.init.fingerprint ∧
      some (items_signature []) = PlaylistState.init.signature) := by
    simp [PlaylistState.init]
  exact ⟨h, (PlaylistState.update_spec PlaylistState.init [] "").2 h⟩

lemma evict_oldest_spec :
    ∀ (l : List (String × Int × Int)) (total_count total_size max_files max_bytes : Int),
      ∃ k : Nat, k ≤ l.length ∧
        evict_oldest l total_count total_size max_files max_bytes =
          (l.map fun c => c.1).take k ∧
        (k = l.length ∨
          ((0 < max_files → total_count - (k : Int) ≤ max_files) ∧
           (0 < max_bytes →
             total_size - ((l.take k).map fun c => c.2.1).sum ≤ max_bytes))) ∧
        (∀ j : Nat, j < k →
          (0 < max_files ∧ max_files < total_count - (j : Int)) ∨
          (0 < max_bytes ∧
            max_bytes < total_size - ((l.take j).map fun c => c.2.1).sum)) := by
  intro l
  induction l with
  | nil =>
    intro cnt sz mf mb
    exact ⟨0, by simp, by simp [evict_oldest], Or.inl rfl, by omega⟩
  | cons hd rest ih =>
    intro cnt sz mf mb
    obtain ⟨p, s, t⟩ := hd
    by_cases hcond : (0 < mf ∧ mf < cnt) ∨ (0 < mb ∧ mb < sz)
    · obtain ⟨k, hk1, hk2, hk3, hk4⟩ := ih (cnt - 1) (sz - s) mf mb
      refine ⟨k + 1, by simpa using hk1, ?_, ?_, ?_⟩
      · simp only [evict_oldest, if_pos hcond, hk2, List.map_cons, List.take_succ_cons]
      · rcases hk3 with h | ⟨ha, hb⟩
        · left
          simp [h]
        · right
          refine ⟨fun hmf => ?_, fun hmb => ?_⟩
          · have := ha hmf
            push_cast at this ⊢
            omega
          · have := hb hmb
            simp only [List.take_succ_cons, List.map_cons, List.sum_cons]
            omega
      · intro j hj
        cases j with
        | zero => simpa using hcond
        | succ j' =>
          have hg := hk4 j' (by omega)
          simp only [List.take_succ_cons, List.map_cons, List.sum_cons]
          rcases hg with ⟨h1, h2⟩ | ⟨h1, h2⟩
          · refine Or.inl ⟨h1, ?_⟩
            push_cast at h2 ⊢
            omega
          · exact Or.inr ⟨h1, by omega⟩
    · refine ⟨0, by simp, by simp [evict_oldest, if_neg hcond], Or.inr ?_, by omega⟩
      push_neg at hcond
      exact ⟨fun hmf => by have := hcond.1 hmf; simp; omega,
        fun hmb => by have := hcond.2 hmb; simp; omega⟩

lemma mem_cleanup_candidates_fst {entries : List CacheEntry}
    {keep_paths : List String} {p : String}
    (hp : p ∈ (cleanup_candidates entries keep_paths).map fun c => c.1) :
    p ∉ keep_paths := by
  simp only [cleanup_candidates, cache_files, List.map_map, List.mem_map,
    List.mem_filter, Function.comp] at hp
  obtain ⟨e, ⟨⟨_, _⟩, hkeep⟩, hpe⟩ := hp
  rw [← hpe]
  simpa using hkeep

/-- C6: with both cache limits unset, `cleanup_cache_dir` removes exactly the
regular files outside `keep_paths`; with a limit set, the removed files form
an oldest-first prefix of the last-used-sorted non-keep candidates, each
eviction happening only while some configured limit is still exceeded, and
eviction stopping once every configured limit is satisfied (or the
candidates are exhausted); and a path in `keep_paths` is never removed. -/
theorem cleanup_cache_dir_spec :
    ∀ (entries : List CacheEntry) (keep_paths : List String) (max_files max_bytes : Int),
      (max_files ≤ 0 ∧ max_bytes ≤ 0 →
        cleanup_cache_dir entries keep_paths max_files max_bytes =
          (entries.filter fun e => !decide (e.path ∈ keep_paths) && e.is_file).map
            fun e => e.path) ∧
      (∀ p ∈ cleanup_cache_dir entries keep_paths max_files max_bytes,
        p ∉ keep_paths) ∧
      (¬(max_files ≤ 0 ∧ max_bytes ≤ 0) →
        ∃ k : Nat,
          cleanup_cache_dir entries keep_paths max_files max_bytes =
            ((cleanup_sorted entries keep_paths).map fun c => c.1).take k ∧
          (k = (cleanup_sorted entries keep_paths).length ∨
            ((0 < max_files → cache_total_count entries - (k : Int) ≤ max_files) ∧
             (0 < max_bytes →
               cache_total_size entries -
                 (((cleanup_sorted entries keep_paths).take k).map fun c => c.2.1).sum
                 ≤ max_bytes))) ∧
          (∀ j : Nat, j < k →
            (0 < max_files ∧ max_files < cache_total_count entries - (j : Int)) ∨
            (0 < max_bytes ∧
              max_bytes < cache_total_size entries -
                (((cleanup_sorted entries keep_paths).take j).map fun c => c.2.1).sum))) := by
  intro entries keep mf mb
  have hsortmem : ∀ p, p ∈ (cleanup_sorted entries keep).map (fun c => c.1) →
      p ∈ (cleanup_candidates entries keep).map fun c => c.1 := by
    intro p hp
    exact (((List.mergeSort_perm (cleanup_candidates entries keep) _).map
      fun c => c.1).mem_iff).mp hp
  refine ⟨fun hle => ?_, fun p hp => ?_, fun hgt => ?_⟩
  · simp only [cleanup_cache_dir, if_pos hle, cleanup_candidates, cache_files,
      List.filter_filter, List.map_map]
    rfl
  · by_cases hle : mf ≤ 0 ∧ mb ≤ 0
    · rw [cleanup_cache_dir, if_pos hle] at hp
      exact mem_cleanup_candidates_fst hp
    · rw [cleanup_cache_dir, if_neg hle] at hp
      obtain ⟨k, _, heq, _, _⟩ := evict_oldest_spec (cleanup_sorted entries keep)
        (cache_total_count entries) (cache_total_size entries) mf mb
      rw [heq] at hp
      exact mem_cleanup_candidates_fst (hsortmem p (List.mem_of_mem_take hp))
  · obtain ⟨k, hk1, heq, hstop, hmin⟩ := evict_oldest_spec (cleanup_sorted entries keep)
      (cache_total_count entries) (cache_total_size entries) mf mb
    exact ⟨k, by rw [cleanup_cache_dir, if_neg hgt]; exact heq, hstop, hmin⟩

theorem cleanup_cache_dir_spec_witness :
    ((0 : Int) ≤ 0 ∧ (0 : Int) ≤ 0) ∧
    cleanup_cache_dir
        [⟨"a", true, 5, 10⟩, ⟨"b", true, 7, 3⟩, ⟨"d", false, 2, 1⟩] ["a"] 0 0 =
      ([⟨"a", true, 5, 10⟩, ⟨"b", true, 7, 3⟩, ⟨"d", false, 2, 1⟩].filter
          fun e : CacheEntry => !decide (e.path ∈ ["a"]) && e.is_file).map
        fun e => e.path :=
  ⟨⟨le_refl 0, le_refl 0⟩,
    (cleanup_cache_dir_spec
      [⟨"a", true, 5, 10⟩, ⟨"b", true, 7, 3⟩, ⟨"d", false, 2, 1⟩] ["a"] 0 0).1
      ⟨le_refl 0, le_refl 0⟩⟩

/-- C7: the offline playlist is always allowed when `offline_max_age_hours`
is unset (≤ 0); with a positive limit it is allowed when the no-network
override is set and the network probe failed, allowed when the reference
string (raw `last_success`, falling back to `saved_at`) is absent or does
not parse, and otherwise allowed exactly when the reference timestamp is no
older than the limit; in particular a 6-month-stale snapshot under a 1 h
limit is allowed without network and rejected with network. -/
theorem offline_playlist_allowed_spec :
    (∀ (max_age_hours : ℚ) (ignore_when_no_network : Bool)
       (last_success saved_at : Option (Option Int))
       (network_available : Option Bool)
       (now_ts : Int), max_age_hours ≤ 0 →
      offline_playlist_allowed max_age_hours ignore_when_no_network last_success
        saved_at network_available now_ts = true) ∧
    (∀ (max_age_hours : ℚ) (last_success saved_at : Option (Option Int))
       (now_ts : Int), 0 < max_age_hours →
      offline_playlist_allowed max_age_hours true last_success saved_at
        (some false) now_ts = true) ∧
    (∀ (max_age_hours : ℚ) (ignore_when_no_network : Bool)
       (last_success saved_at : Option (Option Int))
       (network_available : Option Bool) (now_ts : Int),
      (last_success.orElse fun _ => saved_at) = none ∨
        (last_success.orElse fun _ => saved_at) = some none →
      offline_playlist_allowed max_age_hours ignore_when_no_network last_success
        saved_at network_available now_ts = true) ∧
    (∀ (max_age_hours : ℚ) (ignore_when_no_network : Bool)
       (last_success saved_at : Option (Option Int))
       (network_available : Option Bool)
       (now_ts ref_ts : Int), 0 < max_age_hours →
      ¬(ignore_when_no_network = true ∧ network_available = some false) →
      (last_success.orElse fun _ => saved_at) = some (some ref_ts) →
      (offline_playlist_allowed max_age_hours ignore_when_no_network last_success
          saved_at network_available now_ts = true ↔
        ((now_ts : ℚ) - (ref_ts : ℚ)) / 3600 ≤ max_age_hours)) ∧
    offline_playlist_allowed 1 true none (some (some 0)) (some false) 15552000 = true ∧
    offline_playlist_allowed 1 true none (some (some 0)) (some true) 15552000 = false := by
  refine ⟨fun mah ign ls sa na now h => ?_, fun mah ls sa now h => ?_,
    fun mah ign ls sa na now hor => ?_,
    fun mah ign ls sa na now ref h hig hor => ?_, ?_, ?_⟩
  · rw [offline_playlist_allowed, if_pos h]
  · rw [offline_playlist_allowed, if_neg (not_le.mpr h), if_pos ⟨rfl, rfl⟩]
  · rcases hor with h | h <;> simp [offline_playlist_allowed, h]
  · rw [offline_playlist_allowed, if_neg (not_le.mpr h), if_neg hig, hor]
    simp
  · norm_num [offline_playlist_allowed]
  · norm_num [offline_playlist_allowed, Option.orElse]

theorem offline_playlist_allowed_spec_witness :
    (0 : ℚ) ≤ 0 ∧
    offline_playlist_allowed 0 true none none none 0 = true :=
  ⟨le_refl 0, offline_playlist_allowed_spec.1 0 true none none none 0 (le_refl 0)⟩

lemma fingerprint_items_congr :
    ∀ {raw₁ raw₂ : List RawItem},
      List.Forall₂ (fun i j => i.lookup "url" = j.lookup "url" ∧
        i.lookup "duration_ms" = j.lookup "duration_ms") raw₁ raw₂ →
      fingerprint_items raw₁ = fingerprint_items raw₂ := by
  intro raw₁ raw₂ h
  induction h with
  | nil => rfl
  | cons hp _ ih =>
    simp only [fingerprint_items, List.map_cons, List.cons.injEq] at ih ⊢
    exact ⟨by rw [hp.1, hp.2], ih⟩

lemma lookup_eq_of_perm (key : String) :
    ∀ {l₁ l₂ : RawItem}, l₁.Perm l₂ → (l₁.map Prod.fst).Nodup →
      l₁.lookup key = l₂.lookup key := by
  intro l₁ l₂ hperm
  induction hperm with
  | nil => exact fun _ => rfl
  | cons x _ ih =>
    intro hnd
    simp only [List.map_cons, List.nodup_cons] at hnd
    obtain ⟨x1, x2⟩ := x
    cases hkx : key == x1 <;> simp [List.lookup, hkx, ih hnd.2]
  | swap x y l =>
    intro hnd
    obtain ⟨x1, x2⟩ := x
    obtain ⟨y1, y2⟩ := y
    simp only [List.map_cons, List.nodup_cons, List.mem_cons] at hnd
    have hxy : y1 ≠ x1 := fun hc => hnd.1 (Or.inl hc)
    cases hky : key == y1 <;> cases hkx : key == x1 <;>
      simp only [List.lookup, hky, hkx]
    exact absurd (by rw [← eq_of_beq hky, ← eq_of_beq hkx]) hxy
  | trans h₁ _ ih₁ ih₂ =>
    intro hnd
    exact (ih₁ hnd).trans (ih₂ (((h₁.map Prod.fst).nodup_iff).mp hnd))

/-- C8: `fingerprint_items` depends only on the ordered sequence of
`url`/`duration_ms` projections of the raw items — reordering the keys
inside an item dict (unique keys) or adding and removing other fields leaves
it unchanged — while permuting the items themselves can change it, as the
two-item example shows. -/
theorem fingerprint_items_spec :
    (∀ raw₁ raw₂ : List RawItem,
      List.Forall₂ (fun i j => i.lookup "url" = j.lookup "url" ∧
        i.lookup "duration_ms" = j.lookup "duration_ms") raw₁ raw₂ →
      fingerprint_items raw₁ = fingerprint_items raw₂) ∧
    (∀ raw₁ raw₂ : List RawItem,
      List.Forall₂ (fun i j => i.Perm j ∧ (i.map Prod.fst).Nodup) raw₁ raw₂ →
      fingerprint_items raw₁ = fingerprint_items raw₂) ∧
    ([[("url", PyVal.str "a"), ("duration_ms", PyVal.int 1)],
      [("url", PyVal.str "b"), ("duration_ms", PyVal.int 2)]].Perm
      [[("url", PyVal.str "b"), ("duration_ms", PyVal.int 2)],
       [("url", PyVal.str "a"), ("duration_ms", PyVal.int 1)]] ∧
     fingerprint_items
        [[("url", PyVal.str "a"), ("duration_ms", PyVal.int 1)],
         [("url", PyVal.str "b"), ("duration_ms", PyVal.int 2)]] ≠
      fingerprint_items
        [[("url", PyVal.str "b"), ("duration_ms", PyVal.int 2)],
         [("url", PyVal.str "a"), ("duration_ms", PyVal.int 1)]]) := by
  refine ⟨fun raw₁ raw₂ h => fingerprint_items_congr h, fun raw₁ raw₂ h => ?_,
    List.Perm.swap _ _ _, by decide⟩
  refine fingerprint_items_congr (h.imp fun i j hp => ?_)
  exact ⟨lookup_eq_of_perm "url" hp.1 hp.2, lookup_eq_of_perm "duration_ms" hp.1 hp.2⟩

theorem fingerprint_items_spec_witness :
    List.Forall₂ (fun i j : RawItem => i.lookup "url" = j.lookup "url" ∧
        i.lookup "duration_ms" = j.lookup "duration_ms")
      [[("url", PyVal.str "a"), ("duration_ms", PyVal.int 1)]]
      [[("duration_ms", PyVal.int 1), ("extra", PyVal.str "x"),
        ("url", PyVal.str "a")]] ∧
    fingerprint_items [[("url", PyVal.str "a"), ("duration_ms", PyVal.int 1)]] =
      fingerprint_items [[("duration_ms", PyVal.int 1), ("extra", PyVal.str "x"),
        ("url", PyVal.str "a")]] :=
  ⟨List.Forall₂.cons (by decide) List.Forall₂.nil,
    fingerprint_items_spec.1 _ _ (List.Forall₂.cons (by decide) List.Forall₂.nil)⟩

end Kiosk
